import Mathlib

/-!
# Verification of the big-media-loader handle registry and chunk utilities

This development gives a shallow embedding of the core of the
`react-native-big-media-loader` library:

* the Android native module `BigMediaLoaderModule` (Kotlin): a handle
  registry with `open`, `close`, `stat`, `playableUri` and the bounded
  byte-range reader `readBase64` that base64-encodes the bytes it reads;
* the iOS native module `BigMediaLoader` (Objective-C): the same operations,
  which however return `nil` for unknown handles and apply no per-call cap;
* the TypeScript utility layer (`src/utils.ts`): `readFileInChunks`,
  `uploadFileInChunks` with per-chunk retry, `calculateFileHash`,
  `readFileHeader` and `detectFileType`.

Files are modelled as lists of byte values (`Nat`s below 256); the bridge
strings (base64 payloads, hex header strings) are modelled as lists of
characters.  JavaScript callbacks (`onChunk`, `uploadFunction`) are modelled
as explicit state-threading functions; asynchronous waits appear as `wait`
events in an explicit event trace so that retry timing is observable.
-/

set_option autoImplicit false

/-- Error taxonomy of the native modules and the utility layer:
`invalidHandle` models the Kotlin `RuntimeException("Invalid handle")`,
`uploadFailed` models an error thrown out of the upload retry loop. -/
inductive Err where
  | invalidHandle
  | uploadFailed (msg : String)
deriving DecidableEq

/-- Decidable equality for `Except` results, used to evaluate witnesses. -/
instance exceptDecEq {ε α : Type} [DecidableEq ε] [DecidableEq α] :
    DecidableEq (Except ε α) := fun x y =>
  match x, y with
  | .ok a, .ok b =>
    if h : a = b then .isTrue (h ▸ rfl) else .isFalse (fun hc => h (Except.ok.inj hc))
  | .error a, .error b =>
    if h : a = b then .isTrue (h ▸ rfl) else .isFalse (fun hc => h (Except.error.inj hc))
  | .ok _, .error _ => .isFalse (fun hc => Except.noConfusion hc)
  | .error _, .ok _ => .isFalse (fun hc => Except.noConfusion hc)

/-- Result of `stat`: mirrors the map `{size, mime, name, uri}` built by the
Kotlin `stat` (sizes are JS numbers holding non-negative integers, here `Nat`). -/
structure MediaStats where
  size : Nat
  mime : Option String
  name : Option String
  uri : String
deriving DecidableEq

/-- Result of `readBase64`: mirrors `{offset, bytesRead, eof, base64}`.
The base64 payload string is modelled as its list of characters. -/
structure ReadResult where
  offset : Nat
  bytesRead : Nat
  eof : Bool
  base64 : List Char
deriving DecidableEq

/-- A registry entry. `content` models the byte stream visible through the
open OS resource (Kotlin `FileChannel` / iOS `NSFileHandle`); `size` is the
length captured at open time, as in both native modules. -/
structure BigMediaHandle where
  uri : String
  content : List Nat
  size : Nat
  mime : Option String
  name : Option String
deriving DecidableEq

/-- The module's mutable state: the `nextId` counter and the handle table
(`HashMap<Int, BigMediaHandle>` / `NSMutableDictionary`), modelled as an
association list keyed by the handle id. -/
structure LoaderState where
  nextId : Nat
  handles : List (Nat × BigMediaHandle)
deriving DecidableEq

/-- The standard base64 alphabet, in index order. -/
def b64alphabet : List Char :=
  "ABCDEFGHIJKLMNOPQRSTUVWXYZabcdefghijklmnopqrstuvwxyz0123456789+/".toList

/-- Character of a 6-bit group. -/
def b64char (i : Nat) : Char := b64alphabet.getD i 'A'

/-- Index of a base64 character in the alphabet. -/
def b64index (c : Char) : Nat := b64alphabet.findIdx (fun x => x == c)

/-- Standard base64 encoding of a byte list (RFC 4648: `=`-padded, no line
wrapping).  This models `Base64.encodeToString(bytes, Base64.NO_WRAP)` on
Android and `base64EncodedStringWithOptions:0` on iOS. -/
def b64encodeBytes : List Nat → List Char
  | [] => []
  | [a] => [b64char (a / 4), b64char (a % 4 * 16), '=', '=']
  | [a, b] => [b64char (a / 4), b64char (a % 4 * 16 + b / 16), b64char (b % 16 * 4), '=']
  | a :: b :: c :: rest =>
    b64char (a / 4) :: b64char (a % 4 * 16 + b / 16) ::
    b64char (b % 16 * 4 + c / 64) :: b64char (c % 64) :: b64encodeBytes rest

/-- Regroup a list of 6-bit values into bytes (the core of base64 decoding). -/
def b64regroup : List Nat → List Nat
  | i1 :: i2 :: i3 :: i4 :: rest =>
    (i1 * 4 + i2 / 16) :: (i2 % 16 * 16 + i3 / 4) :: (i3 % 4 * 64 + i4) :: b64regroup rest
  | [i1, i2] => [i1 * 4 + i2 / 16]
  | [i1, i2, i3] => [i1 * 4 + i2 / 16, i2 % 16 * 16 + i3 / 4]
  | _ => []

/-- Base64 decoding of a well-formed base64 string: drop the `=` padding,
map characters to their alphabet index, regroup 6-bit values into bytes.
This models `Buffer.from(base64String, 'base64')` from the TypeScript layer. -/
def b64decodeChars (s : List Char) : List Nat :=
  b64regroup ((s.filter (fun c => c != '=')).map b64index)

/-- Lowercase hexadecimal digit of a value below 16. -/
def hexDigitChar (n : Nat) : Char :=
  "0123456789abcdef".toList.getD n '0'

/-- Lowercase hexadecimal rendering of a byte list; models
`buffer.toString('hex')` (which is already lowercase, so the source's
subsequent `.toLowerCase()` is the identity on it). -/
def bytesToHex (bs : List Nat) : List Char :=
  bs.flatMap (fun b => [hexDigitChar (b / 16), hexDigitChar (b % 16)])

/-- Substring test on character lists; models JavaScript's
`String.prototype.includes`. -/
def containsSeq (pat l : List Char) : Bool :=
  l.tails.any (fun t => pat.isPrefixOf t)

/-- The per-call read cap of the Android `readBase64`
(`coerceAtMost(4L * 1024L * 1024L)`, a 4 MiB bound). -/
def CAP : Nat := 4 * 1024 * 1024

namespace BigMediaLoaderModule

/-- Models the Kotlin `open(uriString)`: resolves the uri to an open
resource whose bytes are `content`, captures `size` from the channel,
best-effort `mime`/`name`, allocates `nextId` and stores the record.
(The resolved bytes and metadata are inputs of the model, since the
filesystem is outside the program.)  Named `openFile` because `open` is a
reserved word here. -/
def openFile (st : LoaderState) (uriString : String) (content : List Nat)
    (mime name : Option String) : LoaderState × Nat :=
  let size := content.length
  let id := st.nextId
  ({ nextId := id + 1,
     handles := (id, ⟨uriString, content, size, mime, name⟩) :: st.handles }, id)

/-- Models the Kotlin `close(handle)`: `handles.remove(handle)` (a no-op on
an absent key) plus release of the OS resource, which has no observable
effect on the registry state. -/
def close (st : LoaderState) (handle : Nat) : LoaderState :=
  { st with handles := st.handles.filter (fun p => p.1 != handle) }

/-- Models the Kotlin `stat(handle)`: throws `Invalid handle` for an unknown
id, otherwise returns the stored `{size, mime, name, uri}`. -/
def stat (st : LoaderState) (handle : Nat) : Except Err MediaStats :=
  match st.handles.lookup handle with
  | none => .error .invalidHandle
  | some h => .ok ⟨h.size, h.mime, h.name, h.uri⟩

/-- Models the Kotlin `playableUri(handle)`: throws `Invalid handle` for an
unknown id, otherwise returns the original uri string. -/
def playableUri (st : LoaderState) (handle : Nat) : Except Err String :=
  match st.handles.lookup handle with
  | none => .error .invalidHandle
  | some h => .ok h.uri

/-- Models the Kotlin `readBase64(handle, offset, length)`: throws
`Invalid handle` for an unknown id; clamps `length` to the 4 MiB `CAP`;
positions the channel at `offset` and reads up to the clamped length
(`channel.read` returns `min len (size - offset)` bytes there, and a
non-positive count at or past end of file); on a non-positive read returns
`{offset, 0, eof := true, ""}`; otherwise returns the bytes read,
`eof := offset + read >= size` against the captured size, and the base64
of the bytes. -/
def readBase64 (st : LoaderState) (handle offset length : Nat) : Except Err ReadResult :=
  match st.handles.lookup handle with
  | none => .error .invalidHandle
  | some h =>
    let len := min length CAP
    let read := min len (h.size - offset)
    if read = 0 then .ok ⟨offset, 0, true, []⟩
    else .ok ⟨offset, read, decide (offset + read ≥ h.size),
              b64encodeBytes ((h.content.drop offset).take read)⟩

end BigMediaLoaderModule

namespace BigMediaLoaderIos

/-- Models the Objective-C `open:` of the iOS `BigMediaLoader` class:
opens an `NSFileHandle`, captures the file size, stores the record under
`nextId`.  Same registry shape as the Android module. -/
def openFile (st : LoaderState) (uriString : String) (content : List Nat)
    (mime name : Option String) : LoaderState × Nat :=
  let size := content.length
  let id := st.nextId
  ({ nextId := id + 1,
     handles := (id, ⟨uriString, content, size, mime, name⟩) :: st.handles }, id)

/-- Models the Objective-C `close:`: closes and removes a known handle,
no-op otherwise. -/
def close (st : LoaderState) (handle : Nat) : LoaderState :=
  { st with handles := st.handles.filter (fun p => p.1 != handle) }

/-- Models the Objective-C `stat:`: returns `nil` (here `none`) for an
unknown handle — it does not raise an error. -/
def stat (st : LoaderState) (handle : Nat) : Option MediaStats :=
  (st.handles.lookup handle).map (fun h => ⟨h.size, h.mime, h.name, h.uri⟩)

/-- Models the Objective-C `playableUri:`: returns `nil` for an unknown
handle, otherwise the original uri string. -/
def playableUri (st : LoaderState) (handle : Nat) : Option String :=
  (st.handles.lookup handle).map (fun h => h.uri)

/-- Models the Objective-C `readBase64:offset:length:`: returns `nil` for an
unknown handle; otherwise `seekToFileOffset:` then `readDataOfLength:len`,
which yields `min len (size - offset)` bytes — no per-call cap is applied —
with `eof = offset + bytesRead >= size` and the base64 of the data. -/
def readBase64 (st : LoaderState) (handle offset length : Nat) : Option ReadResult :=
  (st.handles.lookup handle).map (fun h =>
    let d := (h.content.drop offset).take length
    ⟨offset, d.length, decide (offset + d.length ≥ h.size), b64encodeBytes d⟩)

end BigMediaLoaderIos

/-- The `while (offset < stats.size)` loop of the TypeScript
`readFileInChunks`, instantiated with the Android reference module.  Each
iteration calls `readBase64`, decodes the payload into `buffer`, invokes the
`onChunk` callback (modelled as a state-threading function that may throw,
returning `some` error), advances `offset += bytesRead` and stops on `eof`.
`fuel` bounds the loop for totality; since a non-`eof` read always returns
at least one byte, fuel `size + 1` is never exhausted. -/
def readChunksLoop {σ : Type} (st : LoaderState) (h : Nat) (size chunkSize : Nat)
    (onChunk : σ → List Nat → Nat → σ × Option Err) : σ → Nat → Nat → σ × Option Err
  | s, _, 0 => (s, none)
  | s, offset, fuel + 1 =>
    if offset < size then
      match BigMediaLoaderModule.readBase64 st h offset chunkSize with
      | .error e => (s, some e)
      | .ok r =>
        let buffer := b64decodeChars r.base64
        match onChunk s buffer offset with
        | (s2, some e) => (s2, some e)
        | (s2, none) =>
          if r.eof then (s2, none)
          else readChunksLoop st h size chunkSize onChunk s2 (offset + r.bytesRead) fuel
    else (s, none)

/-- Models the TypeScript `readFileInChunks(handle, options)`: obtains the
size via `stat`, then iterates `readBase64` from offset 0.  The result is
the final callback state together with `some` error when `stat`,
`readBase64` or the callback failed (a thrown error propagates and aborts
the iteration), `none` on clean completion.  The `onProgress` callback only
reports numbers and is omitted. -/
def readFileInChunks {σ : Type} (st : LoaderState) (h : Nat) (chunkSize : Nat)
    (onChunk : σ → List Nat → Nat → σ × Option Err) (s0 : σ) : σ × Option Err :=
  match BigMediaLoaderModule.stat st h with
  | .error e => (s0, some e)
  | .ok stats => readChunksLoop st h stats.size chunkSize onChunk s0 0 (stats.size + 1)

/-- Contiguity of a delivered chunk list: starting from `off`, each chunk is
non-empty, carries exactly the current offset, and the next chunk starts
where it ends.  This is the "strictly increasing, contiguous,
non-overlapping" delivery order. -/
def chunksContiguous : Nat → List (Nat × List Nat) → Prop
  | _, [] => True
  | off, (o, b) :: rest => o = off ∧ b ≠ [] ∧ chunksContiguous (off + b.length) rest

/-- Observable events of an upload run: an invocation of the caller's
`uploadFunction` for the chunk at `offset` (with its per-chunk attempt
index), or an awaited `setTimeout` delay of `ms` milliseconds. -/
inductive UploadEvent where
  | invoke (offset attempt : Nat)
  | wait (ms : Nat)
deriving DecidableEq

/-- Number of `uploadFunction` invocations for the chunk at offset `off`
in an event trace. -/
def invokeCount (off : Nat) (tr : List UploadEvent) : Nat :=
  (tr.filter (fun e => match e with
    | .invoke o _ => o == off
    | .wait _ => false)).length

/-- The event trace of `k` successive attempts starting at attempt index
`start`: an invocation, with one wait between consecutive invocations. -/
def retryPattern (off d : Nat) : Nat → Nat → List UploadEvent
  | _, 0 => []
  | start, k + 1 =>
    .invoke off start :: (if k = 0 then [] else .wait d :: retryPattern off d (start + 1) k)

/-- The `for (let attempt = 0; attempt < retryAttempts; attempt++)` retry
loop of `uploadFileInChunks`, for one chunk.  `uploadFunction` is the
caller-supplied async sink, modelled as a pure function of
`(chunk, offset, attempt)` so that attempt-dependent outcomes are
expressible; `remaining = retryAttempts - attempt` drives the recursion.
On success the loop returns; on failure it records the error, waits
`retryDelay` if another attempt follows, and after the last attempt throws
the last error — or the generic `Upload failed after all retry attempts`
error when the loop body never ran. -/
def retryGo (uploadFunction : List Nat → Nat → Nat → Except String Unit)
    (chunk : List Nat) (offset retryAttempts retryDelay : Nat) :
    Nat → Nat → Option String → List UploadEvent × Option String
  | _, 0, lastError => ([], some (lastError.getD "Upload failed after all retry attempts"))
  | attempt, remaining + 1, _ =>
    match uploadFunction chunk offset attempt with
    | .ok _ => ([.invoke offset attempt], none)
    | .error e =>
      if attempt < retryAttempts - 1 then
        let r := retryGo uploadFunction chunk offset retryAttempts retryDelay
                   (attempt + 1) remaining (some e)
        (.invoke offset attempt :: .wait retryDelay :: r.1, r.2)
      else
        ([.invoke offset attempt], some e)

/-- The `onChunk` wrapper installed by `uploadFileInChunks`: runs the retry
loop for the chunk, appends its events to the trace, and rethrows its
error (if any) as an `uploadFailed` error. -/
def uploadOnChunk (uploadFunction : List Nat → Nat → Nat → Except String Unit)
    (retryAttempts retryDelay : Nat) :
    List UploadEvent → List Nat → Nat → List UploadEvent × Option Err :=
  fun trace chunk offset =>
    let r := retryGo uploadFunction chunk offset retryAttempts retryDelay 0 retryAttempts none
    (trace ++ r.1, r.2.map Err.uploadFailed)

/-- Models the TypeScript `uploadFileInChunks(handle, options)`: drives
`readFileInChunks` with the retrying `onChunk`.  The result is the event
trace of the run together with the surfaced error, if any. -/
def uploadFileInChunks (st : LoaderState) (h : Nat) (chunkSize : Nat)
    (uploadFunction : List Nat → Nat → Nat → Except String Unit)
    (retryAttempts retryDelay : Nat) : List UploadEvent × Option Err :=
  readFileInChunks st h chunkSize (uploadOnChunk uploadFunction retryAttempts retryDelay) []

/-- Modelled from the spec: the `onChunk` of `calculateFileHash`,
`(chunk) => hash.update(chunk)`.  The incremental hash object of node's
`crypto` module (external library code, not part of this repository) is
modelled by its specification: `update` appends the chunk to the hashed
byte stream and never fails. -/
def hashOnChunk : List Nat → List Nat → Nat → List Nat × Option Err :=
  fun acc chunk _ => (acc ++ chunk, none)

/-- Models the TypeScript `calculateFileHash(handle)`: iterates the file
with the default 4 MiB chunk size feeding every chunk into the hash, then
finalizes.  Modelled from the spec: `sha256hex`, the SHA-256 hex digest
function of node's `crypto` module, is external library code and is taken
as a parameter; `hash.digest('hex')` applies it to the accumulated stream. -/
def calculateFileHash (sha256hex : List Nat → String) (st : LoaderState) (h : Nat) :
    Except Err String :=
  let r := readFileInChunks st h (4 * 1024 * 1024) hashOnChunk []
  match r.2 with
  | some e => .error e
  | none => .ok (sha256hex r.1)

/-- Models the TypeScript `readFileHeader(handle, headerSize)`:
a single `readBase64` at offset 0, decoded to bytes. -/
def readFileHeader (st : LoaderState) (h : Nat) (headerSize : Nat) :
    Except Err (List Nat) :=
  match BigMediaLoaderModule.readBase64 st h 0 headerSize with
  | .error e => .error e
  | .ok r => .ok (b64decodeChars r.base64)

/-- Models the TypeScript `detectFileType(handle)`: reads the first 16
bytes, takes their lowercase hex string, and walks the fixed signature
table. -/
def detectFileType (st : LoaderState) (h : Nat) : Except Err String :=
  match readFileHeader st h 16 with
  | .error e => .error e
  | .ok header =>
    let hex := bytesToHex header
    .ok (if "ffd8ff".toList.isPrefixOf hex then "image/jpeg"
      else if "89504e47".toList.isPrefixOf hex then "image/png"
      else if "47494638".toList.isPrefixOf hex then "image/gif"
      else if "52494646".toList.isPrefixOf hex && containsSeq "41564920".toList hex then "video/avi"
      else if "000001b3".toList.isPrefixOf hex then "video/mpeg"
      else if "66747970".toList.isPrefixOf hex then "video/mp4"
      else if "1a45dfa3".toList.isPrefixOf hex then "video/webm"
      else if "25504446".toList.isPrefixOf hex then "application/pdf"
      else if "504b0304".toList.isPrefixOf hex then "application/zip"
      else "application/octet-stream")

/-- The file-signature table exactly as the specification states it, as a
function of the lowercase hex of the header: prefix matches for all rows
except AVI, which additionally requires a substring match; every other
header maps to `application/octet-stream`. -/
def specMimeOfHex (hex : List Char) : String :=
  if "ffd8ff".toList.isPrefixOf hex then "image/jpeg"
  else if "89504e47".toList.isPrefixOf hex then "image/png"
  else if "47494638".toList.isPrefixOf hex then "image/gif"
  else if "52494646".toList.isPrefixOf hex && containsSeq "41564920".toList hex then "video/avi"
  else if "000001b3".toList.isPrefixOf hex then "video/mpeg"
  else if "66747970".toList.isPrefixOf hex then "video/mp4"
  else if "1a45dfa3".toList.isPrefixOf hex then "video/webm"
  else if "25504446".toList.isPrefixOf hex then "application/pdf"
  else if "504b0304".toList.isPrefixOf hex then "application/zip"
  else "application/octet-stream"

/-- An `uploadFunction` that fails on its very first invocation (the first
attempt on the chunk at offset 0) and succeeds on every later one. -/
def failsFirst (m : String) : List Nat → Nat → Nat → Except String Unit :=
  fun _ offset attempt => if offset = 0 ∧ attempt = 0 then .error m else .ok ()

/-- An `uploadFunction` that always fails. -/
def alwaysFails (m : String) : List Nat → Nat → Nat → Except String Unit :=
  fun _ _ _ => .error m

/-- The registry state at module initialization: `nextId = 1`, no handles. -/
def initState : LoaderState := ⟨1, []⟩

/-- A concrete ten-byte file, used to instantiate the end-to-end scenarios. -/
def demoFile : List Nat := [72, 101, 108, 108, 111, 33, 10, 65, 66, 67]

/-- A registry state holding `demoFile` open under handle 1. -/
def demoState : LoaderState :=
  (BigMediaLoaderModule.openFile initState "file:///demo.bin" demoFile
    (some "application/octet-stream") (some "demo.bin")).1

/-- The registry record created when `demoFile` is opened. -/
def demoHandle : BigMediaHandle :=
  ⟨"file:///demo.bin", demoFile, 10, some "application/octet-stream", some "demo.bin"⟩

/-- The registry record created when the JPEG-signature file is opened. -/
def jpegHandle : BigMediaHandle :=
  ⟨"file:///img.jpg", [255, 216, 255, 224, 0, 16], 6, none, none⟩

/-- A registry state holding a six-byte JPEG-signature file open under handle 1. -/
def jpegState : LoaderState :=
  (BigMediaLoaderModule.openFile initState "file:///img.jpg"
    [255, 216, 255, 224, 0, 16] none none).1

/-- An Android registry state holding a file of exactly `CAP` (4 MiB) zero
bytes open under handle 1. -/
def capState : LoaderState :=
  (BigMediaLoaderModule.openFile initState "file:///cap.bin"
    (List.replicate (4 * 1024 * 1024) 0) none none).1

/-- An iOS registry state holding an 8 MiB zero-byte file open under handle 1. -/
def bigIosState : LoaderState :=
  (BigMediaLoaderIos.openFile initState "file:///big.bin"
    (List.replicate (8 * 1024 * 1024) 0) none none).1

/-! ## Base64 lemmas -/

theorem b64index_b64char_fin : ∀ j : Fin 64, b64index (b64char j.val) = j.val := by
  decide

theorem b64char_ne_pad_fin : ∀ j : Fin 64, (b64char j.val != '=') = true := by
  decide

theorem b64index_b64char (i : Nat) (h : i < 64) : b64index (b64char i) = i :=
  b64index_b64char_fin ⟨i, h⟩

theorem b64char_ne_pad (i : Nat) (h : i < 64) : (b64char i != '=') = true :=
  b64char_ne_pad_fin ⟨i, h⟩

/-- Base64 decoding inverts base64 encoding on byte lists. -/
theorem b64decode_encode : ∀ bs : List Nat, (∀ b ∈ bs, b < 256) →
    b64decodeChars (b64encodeBytes bs) = bs
  | [], _ => rfl
  | [a], h => by
    have ha : a < 256 := h a (by simp)
    simp only [b64encodeBytes, b64decodeChars, List.filter,
      b64char_ne_pad (a / 4) (by omega), b64char_ne_pad (a % 4 * 16) (by omega)]
    norm_num [List.filter, List.map, b64regroup,
      b64index_b64char (a / 4) (by omega), b64index_b64char (a % 4 * 16) (by omega)]
    omega
  | [a, b], h => by
    have ha : a < 256 := h a (by simp)
    have hb : b < 256 := h b (by simp)
    simp only [b64encodeBytes, b64decodeChars, List.filter,
      b64char_ne_pad (a / 4) (by omega), b64char_ne_pad (a % 4 * 16 + b / 16) (by omega),
      b64char_ne_pad (b % 16 * 4) (by omega)]
    norm_num [List.filter, List.map, b64regroup,
      b64index_b64char (a / 4) (by omega), b64index_b64char (a % 4 * 16 + b / 16) (by omega),
      b64index_b64char (b % 16 * 4) (by omega)]
    constructor <;> omega
  | a :: b :: c :: rest, h => by
    have ha : a < 256 := h a (by simp)
    have hb : b < 256 := h b (by simp)
    have hc : c < 256 := h c (by simp)
    have ih := b64decode_encode rest (fun x hx => h x (by simp [hx]))
    simp only [b64encodeBytes, b64decodeChars, List.filter,
      b64char_ne_pad (a / 4) (by omega), b64char_ne_pad (a % 4 * 16 + b / 16) (by omega),
      b64char_ne_pad (b % 16 * 4 + c / 64) (by omega), b64char_ne_pad (c % 64) (by omega),
      List.map, b64regroup,
      b64index_b64char (a / 4) (by omega), b64index_b64char (a % 4 * 16 + b / 16) (by omega),
      b64index_b64char (b % 16 * 4 + c / 64) (by omega), b64index_b64char (c % 64) (by omega),
      List.cons.injEq]
    refine ⟨by omega, by omega, by omega, ?_⟩
    simpa [b64decodeChars] using ih

/-! ## Registry lemmas -/

theorem lookup_cons_of_ne {β : Type} (id : Nat) (p : Nat × β) (t : List (Nat × β))
    (h : p.1 ≠ id) : List.lookup id (p :: t) = List.lookup id t := by
  rcases p with ⟨a, b⟩
  have hb : (id == a) = false := by simp at h ⊢; omega
  simp [List.lookup, hb]

theorem lookup_cons_of_eq {β : Type} (id : Nat) (b : β) (t : List (Nat × β)) :
    List.lookup id ((id, b) :: t) = some b := by
  simp [List.lookup]

theorem lookup_filter_self (l : List (Nat × BigMediaHandle)) (id : Nat) :
    (l.filter (fun p => p.1 != id)).lookup id = none := by
  induction l with
  | nil => rfl
  | cons p t ih =>
    rw [List.filter_cons]
    by_cases hp : p.1 = id
    · rw [if_neg (by simp [hp])]
      exact ih
    · rw [if_pos (by simp [hp]), lookup_cons_of_ne id p _ hp]
      exact ih

theorem filter_of_lookup_none (l : List (Nat × BigMediaHandle)) (id : Nat)
    (h : l.lookup id = none) : l.filter (fun p => p.1 != id) = l := by
  induction l with
  | nil => rfl
  | cons p t ih =>
    by_cases hp : p.1 = id
    · rcases p with ⟨a, b⟩
      simp only at hp
      subst hp
      rw [lookup_cons_of_eq] at h
      exact absurd h (by simp)
    · rw [lookup_cons_of_ne id p t hp] at h
      rw [List.filter_cons, if_pos (by simp [hp]), ih h]

/-! ## Chunk-list lemmas -/

theorem chunksContiguous_offsets_le :
    ∀ (l : List (Nat × List Nat)) (off : Nat), chunksContiguous off l →
      ∀ p ∈ l, off ≤ p.1
  | [], _, _, p, hp => by simp at hp
  | (o, b) :: rest, off, h, p, hp => by
    obtain ⟨ho, hb, hrest⟩ := h
    rcases List.mem_cons.mp hp with h1 | h2
    · subst h1; omega
    · have := chunksContiguous_offsets_le rest (off + b.length) hrest p h2
      omega

theorem chunksContiguous_chain :
    ∀ (l : List (Nat × List Nat)) (off : Nat), chunksContiguous off l →
      List.Chain' (fun a b => a < b) (l.map Prod.fst)
  | [], _, _ => by simp
  | [(_, _)], _, _ => by simp
  | (o1, b1) :: (o2, b2) :: rest, off, h => by
    obtain ⟨ho1, hb1, h2⟩ := h
    obtain ⟨ho2, hb2, h3⟩ := h2
    have tail := chunksContiguous_chain ((o2, b2) :: rest) (off + b1.length) ⟨ho2, hb2, h3⟩
    refine List.chain'_cons.mpr ⟨?_, by simpa using tail⟩
    have hlen : 0 < b1.length := List.length_pos.mpr hb1
    omega

theorem flatten_map_pair (l : List (Nat × List Nat)) :
    (l.map (fun p => [(p.1, p.2)])).flatten = l := by
  induction l with
  | nil => rfl
  | cons p t ih => simp [ih]

/-- Accumulation lemma for the chunk loop: over an open handle whose
captured size matches its content and whose bytes are genuine bytes, with a
positive chunk size and enough fuel, the loop with an append-style callback
completes cleanly, and there is a contiguous chunk decomposition of the
remaining content such that the final state is the initial state extended
by the callback output of every chunk in delivery order. -/
theorem readChunksLoop_accum {β : Type} (st : LoaderState) (h : Nat) (hd : BigMediaHandle)
    (hlk : st.handles.lookup h = some hd) (hsz : hd.size = hd.content.length)
    (hb : ∀ b ∈ hd.content, b < 256) (C : Nat) (hC : 1 ≤ C) (g : List Nat → Nat → List β) :
    ∀ (fuel offset : Nat) (s : List β), hd.size - offset ≤ fuel →
      ∃ l : List (Nat × List Nat),
        chunksContiguous offset l ∧
        (l.map Prod.snd).flatten = hd.content.drop offset ∧
        readChunksLoop st h hd.size C (fun s2 buf off => (s2 ++ g buf off, none)) s offset fuel
          = (s ++ (l.map (fun p => g p.2 p.1)).flatten, none) := by
  intro fuel
  induction fuel with
  | zero =>
    intro offset s hfuel
    refine ⟨[], trivial, ?_, ?_⟩
    · rw [List.drop_eq_nil_of_le (by omega)]
      rfl
    · simp [readChunksLoop]
  | succ fuel ih =>
    intro offset s hfuel
    by_cases hlt : offset < hd.size
    · have hCAP : 0 < CAP := by norm_num [CAP]
      set read := min (min C CAP) (hd.size - offset) with hread_def
      have hread1 : 1 ≤ read := by omega
      have hrb : BigMediaLoaderModule.readBase64 st h offset C =
          .ok ⟨offset, read, decide (offset + read ≥ hd.size),
               b64encodeBytes ((hd.content.drop offset).take read)⟩ := by
        simp only [BigMediaLoaderModule.readBase64, hlk]
        rw [if_neg (by omega)]
      set slice := (hd.content.drop offset).take read with hslice_def
      have hslice_len : slice.length = read := by
        simp only [hslice_def, List.length_take, List.length_drop]
        omega
      have hslice_mem : ∀ b ∈ slice, b < 256 := fun b hbm =>
        hb b (List.mem_of_mem_drop (List.mem_of_mem_take hbm))
      have hdec : b64decodeChars (b64encodeBytes slice) = slice :=
        b64decode_encode slice hslice_mem
      have hslice_ne : slice ≠ [] := by
        intro hnil
        rw [hnil] at hslice_len
        simp at hslice_len
        omega
      by_cases heof : offset + read ≥ hd.size
      · refine ⟨[(offset, slice)], ⟨rfl, hslice_ne, trivial⟩, ?_, ?_⟩
        · have hlen : (hd.content.drop offset).length ≤ read := by
            simp only [List.length_drop]
            omega
          simp only [List.map, List.flatten, hslice_def,
            List.take_of_length_le hlen, List.append_nil]
        · simp only [readChunksLoop, if_pos hlt, hrb, hdec]
          simp [heof]
      · obtain ⟨l2, hcont2, hflat2, hloop2⟩ :=
          ih (offset + read) (s ++ g slice offset) (by omega)
        refine ⟨(offset, slice) :: l2, ⟨rfl, hslice_ne, by rw [hslice_len]; exact hcont2⟩,
          ?_, ?_⟩
        · simp only [List.map, List.flatten, hflat2, hslice_def]
          have hdd : List.drop (offset + read) hd.content
              = List.drop read (List.drop offset hd.content) := by
            rw [List.drop_drop]
          rw [hdd]
          exact List.take_append_drop read (hd.content.drop offset)
        · simp only [readChunksLoop, if_pos hlt, hrb, hdec]
          have : decide (offset + read ≥ hd.size) = false := by simp; omega
          simp only [this]
          simp only [hloop2, List.map, List.flatten, List.append_assoc]
          simp
    · refine ⟨[], trivial, ?_, ?_⟩
      · rw [List.drop_eq_nil_of_le (by omega)]
        rfl
      · simp [readChunksLoop, hlt]

/-- The accumulation lemma at the `readFileInChunks` entry point: from
offset 0, the delivered chunks decompose the whole content. -/
theorem readFileInChunks_accum {β : Type} (st : LoaderState) (h : Nat) (hd : BigMediaHandle)
    (hlk : st.handles.lookup h = some hd) (hsz : hd.size = hd.content.length)
    (hb : ∀ b ∈ hd.content, b < 256) (C : Nat) (hC : 1 ≤ C) (g : List Nat → Nat → List β) :
    ∃ l : List (Nat × List Nat),
      chunksContiguous 0 l ∧
      (l.map Prod.snd).flatten = hd.content ∧
      readFileInChunks st h C (fun s2 buf off => (s2 ++ g buf off, none)) []
        = ((l.map (fun p => g p.2 p.1)).flatten, none) := by
  obtain ⟨l, h1, h2, h3⟩ :=
    readChunksLoop_accum st h hd hlk hsz hb C hC g (hd.size + 1) 0 [] (by omega)
  refine ⟨l, h1, by simpa using h2, ?_⟩
  simp only [readFileInChunks, BigMediaLoaderModule.stat, hlk]
  simpa using h3

/-! ## Claim C3 -/

/-- Claim C3: for every file of size N ≥ 0 and every chunk size C ≥ 1, the
Chunk Iterator (`readFileInChunks`) delivers chunks in strictly increasing,
contiguous, non-overlapping offset order, and concatenating the decoded
payloads of all chunks in delivery order reconstructs exactly the original
N bytes.  The delivered chunks are collected by an `onChunk` that records
`(offset, decoded payload)` pairs in invocation order. -/
theorem c3_readFileInChunks_roundtrip (st : LoaderState) (h : Nat) (hd : BigMediaHandle)
    (hlk : st.handles.lookup h = some hd) (hsz : hd.size = hd.content.length)
    (hb : ∀ b ∈ hd.content, b < 256) (C : Nat) (hC : 1 ≤ C) :
    ∃ l : List (Nat × List Nat),
      readFileInChunks st h C (fun s buf off => (s ++ [(off, buf)], none)) [] = (l, none) ∧
      chunksContiguous 0 l ∧
      List.Chain' (fun a b => a < b) (l.map Prod.fst) ∧
      (l.map Prod.snd).flatten = hd.content := by
  obtain ⟨l, h1, h2, h3⟩ := readFileInChunks_accum st h hd hlk hsz hb C hC
    (fun buf off => [(off, buf)])
  refine ⟨l, ?_, h1, chunksContiguous_chain l 0 h1, h2⟩
  rw [h3]
  simp [flatten_map_pair]

/-- Witness for C3: the ten-byte demo file with chunk size 4 (hypotheses
checked by evaluation, conclusion by the theorem). -/
theorem c3_witness :
    (demoState.handles.lookup 1 = some demoHandle ∧
      demoHandle.size = demoHandle.content.length ∧
      (∀ b ∈ demoHandle.content, b < 256) ∧ 1 ≤ 4) ∧
    (∃ l : List (Nat × List Nat),
      readFileInChunks demoState 1 4 (fun s buf off => (s ++ [(off, buf)], none)) []
        = (l, none) ∧
      chunksContiguous 0 l ∧
      List.Chain' (fun a b => a < b) (l.map Prod.fst) ∧
      (l.map Prod.snd).flatten = demoHandle.content) :=
  ⟨⟨by decide, by decide, by decide, by decide⟩,
   c3_readFileInChunks_roundtrip demoState 1 demoHandle (by decide) (by decide) (by decide)
     4 (by decide)⟩

/-! ## Claim C7 -/

/-- Claim C7: `close` is idempotent and never fails observably: it returns
no error channel at all; closing an unknown (never-opened) id leaves the
registry unchanged, and a second close of the same id has no observable
effect on the registry state. -/
theorem c7_close_idempotent (st : LoaderState) (id : Nat) :
    (st.handles.lookup id = none → BigMediaLoaderModule.close st id = st) ∧
    BigMediaLoaderModule.close (BigMediaLoaderModule.close st id) id
      = BigMediaLoaderModule.close st id := by
  constructor
  · intro hnone
    simp only [BigMediaLoaderModule.close]
    rw [filter_of_lookup_none st.handles id hnone]
  · simp only [BigMediaLoaderModule.close]
    rw [filter_of_lookup_none _ id (lookup_filter_self st.handles id)]

/-- Witness for C7: closing the never-opened id 99 is a no-op on the demo
state, and closing handle 1 twice equals closing it once. -/
theorem c7_witness :
    BigMediaLoaderModule.close demoState 99 = demoState ∧
    BigMediaLoaderModule.close (BigMediaLoaderModule.close demoState 1) 1
      = BigMediaLoaderModule.close demoState 1 :=
  ⟨(c7_close_idempotent demoState 99).1 (by decide),
   (c7_close_idempotent demoState 1).2⟩

/-! ## Claim C2 (corrected) -/

/-- Counterexample to claim C2 as stated: the claim asserts that `stat` on a
never-opened handle id fails with an `InvalidHandle` error on every module,
but the iOS module's `stat` simply returns `nil` (`none`) for such an id —
its operations have no error outcome at all (`if (!h) return nil;`). -/
theorem c2_counterexample : BigMediaLoaderIos.stat initState 5 = none := by decide

/-- Claim C2 (amended): on the Android module, `stat`, `readBase64` and
`playableUri` on a handle id that is not a current registry entry — never
opened or already closed (closing removes the id from any state) — fail
with `InvalidHandle`; the iOS module instead returns `nil` for all three. -/
theorem c2_invalid_handle (st : LoaderState) (id off len : Nat)
    (hnone : st.handles.lookup id = none) :
    BigMediaLoaderModule.stat st id = .error .invalidHandle ∧
    BigMediaLoaderModule.readBase64 st id off len = .error .invalidHandle ∧
    BigMediaLoaderModule.playableUri st id = .error .invalidHandle ∧
    (∀ st2 : LoaderState, (BigMediaLoaderModule.close st2 id).handles.lookup id = none) ∧
    BigMediaLoaderIos.stat st id = none ∧
    BigMediaLoaderIos.readBase64 st id off len = none ∧
    BigMediaLoaderIos.playableUri st id = none := by
  refine ⟨?_, ?_, ?_, ?_, ?_, ?_, ?_⟩ <;>
    simp [BigMediaLoaderModule.stat, BigMediaLoaderModule.readBase64,
      BigMediaLoaderModule.playableUri, BigMediaLoaderModule.close,
      BigMediaLoaderIos.stat, BigMediaLoaderIos.readBase64,
      BigMediaLoaderIos.playableUri, hnone, lookup_filter_self]

/-- Witness for C2: handle 1 of the demo state after it has been closed. -/
theorem c2_witness :
    ((BigMediaLoaderModule.close demoState 1).handles.lookup 1 = none) ∧
    (BigMediaLoaderModule.stat (BigMediaLoaderModule.close demoState 1) 1
        = .error .invalidHandle ∧
      BigMediaLoaderModule.readBase64 (BigMediaLoaderModule.close demoState 1) 1 0 4
        = .error .invalidHandle ∧
      BigMediaLoaderModule.playableUri (BigMediaLoaderModule.close demoState 1) 1
        = .error .invalidHandle ∧
      (∀ st2 : LoaderState, (BigMediaLoaderModule.close st2 1).handles.lookup 1 = none) ∧
      BigMediaLoaderIos.stat (BigMediaLoaderModule.close demoState 1) 1 = none ∧
      BigMediaLoaderIos.readBase64 (BigMediaLoaderModule.close demoState 1) 1 0 4 = none ∧
      BigMediaLoaderIos.playableUri (BigMediaLoaderModule.close demoState 1) 1 = none) :=
  ⟨by decide, c2_invalid_handle (BigMediaLoaderModule.close demoState 1) 1 0 4 (by decide)⟩

/-! ## Claim C5 -/

/-- Claim C5: on an open handle, a `readBase64` call for which zero bytes
are available (the computed read count — the clamped length bounded by the
bytes remaining before the captured size — is zero, in particular whenever
`offset ≥ size`) returns `bytesRead = 0`, `eof = true` and an empty payload
as a normal result, not an error; in particular, after `readBase64(h, 0,
size)` (which also succeeds), the call `readBase64(h, size, 1)` yields
`bytesRead = 0`, `eof = true`.  Reads leave the registry state untouched,
so sequencing the two calls needs no extra bookkeeping. -/
theorem c5_zero_read (st : LoaderState) (h : Nat) (hd : BigMediaHandle)
    (hlk : st.handles.lookup h = some hd) :
    (∀ off len, min (min len CAP) (hd.size - off) = 0 →
      BigMediaLoaderModule.readBase64 st h off len = .ok ⟨off, 0, true, []⟩) ∧
    (∃ r1, BigMediaLoaderModule.readBase64 st h 0 hd.size = .ok r1) ∧
    BigMediaLoaderModule.readBase64 st h hd.size 1 = .ok ⟨hd.size, 0, true, []⟩ := by
  refine ⟨?_, ?_, ?_⟩
  · intro off len hz
    simp only [BigMediaLoaderModule.readBase64, hlk]
    rw [if_pos hz]
  · simp only [BigMediaLoaderModule.readBase64, hlk]
    by_cases hz : min (min hd.size CAP) (hd.size - 0) = 0
    · rw [if_pos hz]
      exact ⟨_, rfl⟩
    · rw [if_neg hz]
      exact ⟨_, rfl⟩
  · simp only [BigMediaLoaderModule.readBase64, hlk]
    rw [if_pos (by omega)]

/-- Witness for C5: the ten-byte demo file; reading at offset 10 with
length 1 is the end-of-file case of the scenario. -/
theorem c5_witness :
    (demoState.handles.lookup 1 = some demoHandle) ∧
    ((∀ off len, min (min len CAP) (demoHandle.size - off) = 0 →
        BigMediaLoaderModule.readBase64 demoState 1 off len = .ok ⟨off, 0, true, []⟩) ∧
      (∃ r1, BigMediaLoaderModule.readBase64 demoState 1 0 demoHandle.size = .ok r1) ∧
      BigMediaLoaderModule.readBase64 demoState 1 demoHandle.size 1
        = .ok ⟨demoHandle.size, 0, true, []⟩) :=
  ⟨by decide, c5_zero_read demoState 1 demoHandle (by decide)⟩

/-! ## Claim C4 -/

/-- Claim C4: on an open handle, a `readBase64` call with at least one byte
available returns the actual number of bytes read (the requested length,
clamped, bounded by the bytes remaining — so possibly less than requested
near end of file), `eof = (offset + bytesRead ≥ size)` with the size
captured at open time, and the payload as standard base64 (no line
wrapping) of exactly those bytes: decoding the payload yields the content
slice. -/
theorem c4_readBase64_result (st : LoaderState) (h : Nat) (hd : BigMediaHandle)
    (hlk : st.handles.lookup h = some hd) (hb : ∀ b ∈ hd.content, b < 256)
    (off len : Nat) (havail : 1 ≤ min (min len CAP) (hd.size - off)) :
    BigMediaLoaderModule.readBase64 st h off len
      = .ok ⟨off, min (min len CAP) (hd.size - off),
             decide (off + min (min len CAP) (hd.size - off) ≥ hd.size),
             b64encodeBytes ((hd.content.drop off).take (min (min len CAP) (hd.size - off)))⟩ ∧
    b64decodeChars
        (b64encodeBytes ((hd.content.drop off).take (min (min len CAP) (hd.size - off))))
      = (hd.content.drop off).take (min (min len CAP) (hd.size - off)) := by
  constructor
  · simp only [BigMediaLoaderModule.readBase64, hlk]
    rw [if_neg (by omega)]
  · exact b64decode_encode _ (fun b hbm =>
      hb b (List.mem_of_mem_drop (List.mem_of_mem_take hbm)))

/-- Witness for C4: end-to-end scenario 2 — on the ten-byte demo file,
`readBase64(h, 8, 4)` returns offset 8, bytesRead 2, eof true and the
base64 of the last two bytes (`BC` encodes to `QkM=`). -/
theorem c4_witness :
    (demoState.handles.lookup 1 = some demoHandle ∧
      (∀ b ∈ demoHandle.content, b < 256) ∧
      1 ≤ min (min 4 CAP) (demoHandle.size - 8)) ∧
    (BigMediaLoaderModule.readBase64 demoState 1 8 4
        = .ok ⟨8, min (min 4 CAP) (demoHandle.size - 8),
               decide (8 + min (min 4 CAP) (demoHandle.size - 8) ≥ demoHandle.size),
               b64encodeBytes ((demoHandle.content.drop 8).take
                 (min (min 4 CAP) (demoHandle.size - 8)))⟩ ∧
      b64decodeChars (b64encodeBytes ((demoHandle.content.drop 8).take
          (min (min 4 CAP) (demoHandle.size - 8))))
        = (demoHandle.content.drop 8).take (min (min 4 CAP) (demoHandle.size - 8))) ∧
    BigMediaLoaderModule.readBase64 demoState 1 8 4
      = .ok ⟨8, 2, true, ['Q', 'k', 'M', '=']⟩ :=
  ⟨⟨by decide, by decide, by decide⟩,
   c4_readBase64_result demoState 1 demoHandle (by decide) (by decide) 8 4 (by decide),
   by decide⟩

/-! ## Claim C1 (corrected) -/

/-- Counterexample to claim C1 as stated, in two parts.
First, on the Android module, "when L exceeds the cap on a file with at
least cap bytes remaining past offset, exactly cap bytes are returned with
eof=false" fails at the boundary: on a file of exactly `CAP = 4194304`
bytes, `readBase64(h, 0, CAP + 1)` returns `CAP` bytes with `eof = true`
(the cap bytes remaining are read entirely, so `offset + bytesRead ≥ size`).
Second, "bytesRead never exceeds the cap" fails on the iOS module, whose
`readBase64` applies no cap at all: on an 8 MiB file, a request of 8 MiB at
offset 0 returns 8388608 bytes, which exceeds the 4 MiB cap. -/
theorem c1_counterexample :
    BigMediaLoaderModule.readBase64 capState 1 0 4194305
      = .ok ⟨0, 4194304, true,
             b64encodeBytes ((List.replicate 4194304 (0 : Nat)).take 4194304)⟩ ∧
    BigMediaLoaderIos.readBase64 bigIosState 1 0 8388608
      = some ⟨0, 8388608, true,
              b64encodeBytes ((List.replicate 8388608 (0 : Nat)).take 8388608)⟩ ∧
    4194304 < 8388608 := by
  have hlkA : capState.handles.lookup 1
      = some ⟨"file:///cap.bin", List.replicate (4 * 1024 * 1024) 0,
              (List.replicate (4 * 1024 * 1024) (0 : Nat)).length, none, none⟩ := by
    simp only [capState, BigMediaLoaderModule.openFile, initState]
    exact lookup_cons_of_eq 1 _ _
  have hlkB : bigIosState.handles.lookup 1
      = some ⟨"file:///big.bin", List.replicate (8 * 1024 * 1024) 0,
              (List.replicate (8 * 1024 * 1024) (0 : Nat)).length, none, none⟩ := by
    simp only [bigIosState, BigMediaLoaderIos.openFile, initState]
    exact lookup_cons_of_eq 1 _ _
  refine ⟨?_, ?_, by norm_num⟩
  · simp only [BigMediaLoaderModule.readBase64, hlkA, List.length_replicate]
    rw [if_neg (by norm_num [CAP])]
    norm_num [CAP]
  · simp only [BigMediaLoaderIos.readBase64, hlkB, List.length_replicate, Option.map_some]
    norm_num [List.length_take, List.length_drop]

/-- Claim C1 (amended): on the Android module, `readBase64` clamps the read
to the internal 4 MiB cap: on an open handle it never rejects the request
(the result is a normal `ok`), `bytesRead` never exceeds `CAP`; when `L`
exceeds the cap and strictly more than `CAP` bytes remain past `offset`,
exactly `CAP` bytes are returned with `eof = false`, while with exactly
`CAP` bytes remaining, `CAP` bytes are returned with `eof = true`.  The iOS
module's `readBase64` applies no cap: it returns `min L (size - offset)`
bytes. -/
theorem c1_readBase64_cap (st : LoaderState) (h : Nat) (hd : BigMediaHandle)
    (hlk : st.handles.lookup h = some hd) :
    (∀ off len, ∃ r, BigMediaLoaderModule.readBase64 st h off len = .ok r ∧
      r.bytesRead ≤ CAP) ∧
    (∀ off len, CAP < len → CAP < hd.size - off →
      ∃ r, BigMediaLoaderModule.readBase64 st h off len = .ok r ∧
        r.bytesRead = CAP ∧ r.eof = false) ∧
    (∀ off len, CAP < len → hd.size - off = CAP →
      ∃ r, BigMediaLoaderModule.readBase64 st h off len = .ok r ∧
        r.bytesRead = CAP ∧ r.eof = true) ∧
    (∀ off len, ∃ r, BigMediaLoaderIos.readBase64 st h off len = some r ∧
      r.bytesRead = min len (hd.content.length - off)) := by
  have hCAP : 0 < CAP := by norm_num [CAP]
  refine ⟨?_, ?_, ?_, ?_⟩
  · intro off len
    simp only [BigMediaLoaderModule.readBase64, hlk]
    by_cases hz : min (min len CAP) (hd.size - off) = 0
    · rw [if_pos hz]
      exact ⟨_, rfl, Nat.zero_le _⟩
    · rw [if_neg hz]
      exact ⟨_, rfl, le_trans (min_le_left _ _) (min_le_right _ _)⟩
  · intro off len hlen hrem
    simp only [BigMediaLoaderModule.readBase64, hlk]
    rw [if_neg (by omega)]
    refine ⟨_, rfl, by simp; omega, by simp; omega⟩
  · intro off len hlen hrem
    simp only [BigMediaLoaderModule.readBase64, hlk]
    rw [if_neg (by omega)]
    refine ⟨_, rfl, by simp; omega, by simp; omega⟩
  · intro off len
    simp only [BigMediaLoaderIos.readBase64, hlk, Option.map_some]
    exact ⟨_, rfl, by simp [List.length_take, List.length_drop]⟩

/-- Witness for C1 (amended) at the ten-byte demo file: every read is
accepted with `bytesRead ≤ CAP`, and the iOS bytesRead formula holds. -/
theorem c1_witness :
    (demoState.handles.lookup 1 = some demoHandle) ∧
    ((∀ off len, ∃ r, BigMediaLoaderModule.readBase64 demoState 1 off len = .ok r ∧
        r.bytesRead ≤ CAP) ∧
      (∀ off len, CAP < len → CAP < demoHandle.size - off →
        ∃ r, BigMediaLoaderModule.readBase64 demoState 1 off len = .ok r ∧
          r.bytesRead = CAP ∧ r.eof = false) ∧
      (∀ off len, CAP < len → demoHandle.size - off = CAP →
        ∃ r, BigMediaLoaderModule.readBase64 demoState 1 off len = .ok r ∧
          r.bytesRead = CAP ∧ r.eof = true) ∧
      (∀ off len, ∃ r, BigMediaLoaderIos.readBase64 demoState 1 off len = some r ∧
        r.bytesRead = min len (demoHandle.content.length - off))) :=
  ⟨by decide, c1_readBase64_cap demoState 1 demoHandle (by decide)⟩

/-! ## Claim C9 -/

/-- Claim C9: `detectFileType` reads the first 16 bytes of the file and
returns, on the lowercase hex of that header, exactly the value of the
fixed signature table of the specification (`specMimeOfHex`): prefix
matches for every row except AVI, which additionally requires a substring
match, and `application/octet-stream` for every other header. -/
theorem c9_detectFileType_table (st : LoaderState) (h : Nat) (hd : BigMediaHandle)
    (hlk : st.handles.lookup h = some hd) (hsz : hd.size = hd.content.length)
    (hb : ∀ b ∈ hd.content, b < 256) :
    detectFileType st h = .ok (specMimeOfHex (bytesToHex (hd.content.take 16))) := by
  have hheader : readFileHeader st h 16 = .ok (hd.content.take 16) := by
    simp only [readFileHeader, BigMediaLoaderModule.readBase64, hlk]
    by_cases hz : min (min 16 CAP) (hd.size - 0) = 0
    · rw [if_pos hz]
      have hlen0 : hd.content.length = 0 := by
        norm_num [CAP] at hz
        omega
      have hnil : hd.content = [] := List.length_eq_zero.mp hlen0
      simp [hnil, b64decodeChars]
      rfl
    · rw [if_neg hz]
      have hsliceeq : (hd.content.drop 0).take (min (min 16 CAP) (hd.size - 0))
          = hd.content.take 16 := by
        rw [List.drop_zero]
        rcases le_or_lt hd.content.length 16 with hle | hlt2
        · rw [show min (min 16 CAP) (hd.size - 0) = hd.content.length by
            norm_num [CAP]; omega]
          rw [List.take_length, List.take_of_length_le hle]
        · rw [show min (min 16 CAP) (hd.size - 0) = 16 by norm_num [CAP]; omega]
      rw [hsliceeq]
      show Except.ok (b64decodeChars (b64encodeBytes (hd.content.take 16)))
        = Except.ok (hd.content.take 16)
      rw [b64decode_encode _ (fun b hbm => hb b (List.mem_of_mem_take hbm))]
  have hcast : detectFileType st h = (match readFileHeader st h 16 with
      | Except.error e => Except.error e
      | Except.ok header => Except.ok (specMimeOfHex (bytesToHex header))) := rfl
  rw [hcast, hheader]

/-- Witness for C9: the JPEG-signature demo file is classified per the
table, and concretely as `image/jpeg`. -/
theorem c9_witness :
    (jpegState.handles.lookup 1 = some jpegHandle ∧
      jpegHandle.size = jpegHandle.content.length ∧
      (∀ b ∈ jpegHandle.content, b < 256)) ∧
    detectFileType jpegState 1 = .ok (specMimeOfHex (bytesToHex (jpegHandle.content.take 16))) ∧
    detectFileType jpegState 1 = .ok "image/jpeg" :=
  ⟨⟨by decide, by decide, by decide⟩,
   c9_detectFileType_table jpegState 1 jpegHandle (by decide) (by decide) (by decide),
   by decide⟩

/-! ## Claim C8 -/

/-- Claim C8: `calculateFileHash` feeds the file's logical byte stream, in
order and unaffected by chunk boundaries, into the digest: for every chunk
size C ≥ 1 the accumulated hashed stream is exactly the file content, so
the digest equals the digest of the content for any digest function, and
is identical across chunk sizes; `calculateFileHash` itself (which uses the
default 4 MiB chunk size) returns that digest. -/
theorem c8_hash_deterministic (st : LoaderState) (h : Nat) (hd : BigMediaHandle)
    (hlk : st.handles.lookup h = some hd) (hsz : hd.size = hd.content.length)
    (hb : ∀ b ∈ hd.content, b < 256) :
    (∀ C, 1 ≤ C → readFileInChunks st h C hashOnChunk [] = (hd.content, none)) ∧
    (∀ sha256hex : List Nat → String,
      calculateFileHash sha256hex st h = .ok (sha256hex hd.content)) ∧
    (∀ (sha256hex : List Nat → String) (C1 C2 : Nat), 1 ≤ C1 → 1 ≤ C2 →
      sha256hex (readFileInChunks st h C1 hashOnChunk []).1
        = sha256hex (readFileInChunks st h C2 hashOnChunk []).1) := by
  have key : ∀ C, 1 ≤ C → readFileInChunks st h C hashOnChunk [] = (hd.content, none) := by
    intro C hC
    obtain ⟨l, h1, h2, h3⟩ := readFileInChunks_accum st h hd hlk hsz hb C hC (fun buf _ => buf)
    rw [show readFileInChunks st h C hashOnChunk []
        = readFileInChunks st h C
            (fun s2 buf off => (s2 ++ (fun (buf : List Nat) (_ : Nat) => buf) buf off, none)) []
      from rfl]
    rw [h3, ← h2]
  refine ⟨key, ?_, ?_⟩
  · intro sha
    simp only [calculateFileHash, key (4 * 1024 * 1024) (by norm_num)]
  · intro sha C1 C2 h1 h2
    rw [key C1 h1, key C2 h2]

/-- Witness for C8 at the ten-byte demo file, with chunk sizes 1, 17 and
file-size + 1 as in the specification's determinism test. -/
theorem c8_witness :
    (demoState.handles.lookup 1 = some demoHandle ∧
      demoHandle.size = demoHandle.content.length ∧
      (∀ b ∈ demoHandle.content, b < 256) ∧ (1 ≤ 1 ∧ 1 ≤ 17 ∧ 1 ≤ 11)) ∧
    ((∀ C, 1 ≤ C → readFileInChunks demoState 1 C hashOnChunk [] = (demoHandle.content, none)) ∧
      (∀ sha256hex : List Nat → String,
        calculateFileHash sha256hex demoState 1 = .ok (sha256hex demoHandle.content)) ∧
      (∀ (sha256hex : List Nat → String) (C1 C2 : Nat), 1 ≤ C1 → 1 ≤ C2 →
        sha256hex (readFileInChunks demoState 1 C1 hashOnChunk []).1
          = sha256hex (readFileInChunks demoState 1 C2 hashOnChunk []).1)) :=
  ⟨⟨by decide, by decide, by decide, by decide, by decide, by decide⟩,
   c8_hash_deterministic demoState 1 demoHandle (by decide) (by decide) (by decide)⟩

/-! ## Claim C10 -/

/-- Claim C10: on an open handle with a non-empty file, `uploadFileInChunks`
with `retryAttempts = 0` surfaces the generic
`Upload failed after all retry attempts` error on the first chunk without
ever invoking `uploadFunction`: the retry loop body runs zero times, the
event trace is empty, and no later chunk is attempted. -/
theorem c10_upload_zero_attempts (st : LoaderState) (h : Nat) (hd : BigMediaHandle)
    (hlk : st.handles.lookup h = some hd) (hsz : hd.size = hd.content.length)
    (hne : hd.content ≠ []) (C : Nat) (hC : 1 ≤ C)
    (uf : List Nat → Nat → Nat → Except String Unit) (d : Nat) :
    uploadFileInChunks st h C uf 0 d
      = ([], some (Err.uploadFailed "Upload failed after all retry attempts")) := by
  have hCAP : 0 < CAP := by norm_num [CAP]
  have hpos : 0 < hd.size := by
    rw [hsz]
    exact List.length_pos.mpr hne
  have hrb : BigMediaLoaderModule.readBase64 st h 0 C
      = .ok ⟨0, min (min C CAP) (hd.size - 0), decide (0 + min (min C CAP) (hd.size - 0) ≥ hd.size),
             b64encodeBytes ((hd.content.drop 0).take (min (min C CAP) (hd.size - 0)))⟩ := by
    simp only [BigMediaLoaderModule.readBase64, hlk]
    rw [if_neg (by omega)]
  simp only [uploadFileInChunks, readFileInChunks, BigMediaLoaderModule.stat, hlk]
  have hfuel : hd.size + 1 = (hd.size) + 1 := rfl
  simp only [readChunksLoop, if_pos hpos, hrb, uploadOnChunk, retryGo, Option.getD]
  simp

/-! ## Retry-loop lemmas -/

theorem invokeCount_append (off : Nat) (a b : List UploadEvent) :
    invokeCount off (a ++ b) = invokeCount off a + invokeCount off b := by
  simp [invokeCount, List.filter_append]

theorem invokeCount_retryPattern (off d : Nat) :
    ∀ (k start : Nat), invokeCount off (retryPattern off d start k) = k := by
  intro k
  induction k with
  | zero => intro start; rfl
  | succ k ih =>
    intro start
    by_cases hk : k = 0
    · subst hk
      simp [retryPattern, invokeCount, List.filter]
    · simp only [retryPattern, if_neg hk]
      have heq : UploadEvent.invoke off start :: UploadEvent.wait d ::
          retryPattern off d (start + 1) k
          = [UploadEvent.invoke off start, UploadEvent.wait d]
            ++ retryPattern off d (start + 1) k := rfl
      rw [heq, invokeCount_append, ih (start + 1)]
      simp [invokeCount, List.filter]
      omega

/-- Shape of the retry loop's event trace: starting at `attempt` with
`remaining = retryAttempts - attempt` attempts left, the loop performs some
number `k ≤ remaining` of consecutive attempts (at least one when any
remain), with exactly one `wait retryDelay` between consecutive
invocations and nothing else. -/
theorem retryGo_events_shape (uf : List Nat → Nat → Nat → Except String Unit)
    (chunk : List Nat) (off R d : Nat) :
    ∀ (remaining attempt : Nat) (le : Option String), attempt + remaining = R →
      ∃ k, k ≤ remaining ∧ (1 ≤ remaining → 1 ≤ k) ∧
        (retryGo uf chunk off R d attempt remaining le).1 = retryPattern off d attempt k := by
  intro remaining
  induction remaining with
  | zero =>
    intro attempt le _
    exact ⟨0, le_rfl, by omega, rfl⟩
  | succ rem ih =>
    intro attempt le hinv
    cases huf : uf chunk off attempt with
    | ok _ =>
      refine ⟨1, by omega, by omega, ?_⟩
      simp [retryGo, huf, retryPattern]
    | error e =>
      by_cases hlt : attempt < R - 1
      · obtain ⟨k, hk1, hk2, hk3⟩ := ih (attempt + 1) (some e) (by omega)
        have hrem1 : 1 ≤ rem := by omega
        have hk0 : k ≠ 0 := by
          have := hk2 hrem1
          omega
        refine ⟨k + 1, by omega, by omega, ?_⟩
        simp only [retryGo, huf, if_pos hlt]
        simp only [retryPattern, if_neg hk0]
        rw [hk3]
      · refine ⟨1, by omega, by omega, ?_⟩
        simp [retryGo, huf, hlt, retryPattern]

/-- Per-chunk behaviour of the scenario sink that fails exactly once (on
the first invocation overall) and then succeeds: the chunk at offset 0
takes two attempts with a wait between them; every other chunk succeeds on
the first attempt.  No error escapes the retry loop. -/
theorem retryGo_failsFirst (m : String) (chunk : List Nat) (d : Nat) :
    (∀ off, off ≠ 0 → retryGo (failsFirst m) chunk off 2 d 0 2 none
      = ([.invoke off 0], none)) ∧
    retryGo (failsFirst m) chunk 0 2 d 0 2 none
      = ([.invoke 0 0, .wait d, .invoke 0 1], none) := by
  constructor
  · intro off hoff
    simp [retryGo, failsFirst, hoff]
  · simp [retryGo, failsFirst]

/-! ## Claim C6 -/

/-- Claim C6: per chunk, `uploadFileInChunks` invokes `uploadFn` at most
`retryAttempts` times, as consecutive attempts with a `retryDelay` wait
between consecutive failed attempts and nothing else (the trace of the
per-chunk retry loop is a `retryPattern` of at most `retryAttempts`
invocations); with `retryAttempts = 2` and a sink that fails once then
succeeds, the run surfaces no error and the failing chunk receives exactly
2 invocations; with `retryAttempts = 1` and an always-failing sink, the
last error is surfaced after exactly one invocation and no later chunk is
attempted (the whole trace is that single invocation). -/
theorem c6_upload_retry (st : LoaderState) (h : Nat) (hd : BigMediaHandle)
    (hlk : st.handles.lookup h = some hd) (hsz : hd.size = hd.content.length)
    (hb : ∀ b ∈ hd.content, b < 256) (hne : hd.content ≠ [])
    (C : Nat) (hC : 1 ≤ C) (d : Nat) (m : String) :
    (∀ (uf : List Nat → Nat → Nat → Except String Unit) (chunk : List Nat) (off R : Nat),
      ∃ k, k ≤ R ∧
        (retryGo uf chunk off R d 0 R none).1 = retryPattern off d 0 k ∧
        invokeCount off (retryGo uf chunk off R d 0 R none).1 ≤ R) ∧
    ((uploadFileInChunks st h C (failsFirst m) 2 d).2 = none ∧
      invokeCount 0 (uploadFileInChunks st h C (failsFirst m) 2 d).1 = 2) ∧
    uploadFileInChunks st h C (alwaysFails m) 1 d
      = ([.invoke 0 0], some (.uploadFailed m)) := by
  refine ⟨?_, ?_, ?_⟩
  · intro uf chunk off R
    obtain ⟨k, hk1, _, hk3⟩ := retryGo_events_shape uf chunk off R d R 0 none (by omega)
    refine ⟨k, hk1, hk3, ?_⟩
    rw [hk3, invokeCount_retryPattern]
    omega
  · obtain ⟨l, h1, h2, h3⟩ := readFileInChunks_accum st h hd hlk hsz hb C hC
      (fun _ off => if off = 0
        then [UploadEvent.invoke 0 0, UploadEvent.wait d, UploadEvent.invoke 0 1]
        else [UploadEvent.invoke off 0])
    have hfun : uploadOnChunk (failsFirst m) 2 d = fun trace chunk off =>
        (trace ++ (if off = 0
          then [UploadEvent.invoke 0 0, UploadEvent.wait d, UploadEvent.invoke 0 1]
          else [UploadEvent.invoke off 0]), none) := by
      funext trace chunk off
      by_cases hoff : off = 0
      · subst hoff
        simp [uploadOnChunk, (retryGo_failsFirst m chunk d).2]
      · simp [uploadOnChunk, (retryGo_failsFirst m chunk d).1 off hoff, hoff]
    have hrun : uploadFileInChunks st h C (failsFirst m) 2 d
        = ((l.map (fun p => if p.1 = 0
            then [UploadEvent.invoke 0 0, UploadEvent.wait d, UploadEvent.invoke 0 1]
            else [UploadEvent.invoke p.1 0])).flatten, none) := by
      show readFileInChunks st h C (uploadOnChunk (failsFirst m) 2 d) [] = _
      rw [hfun]
      exact h3
    rw [hrun]
    refine ⟨rfl, ?_⟩
    have hrest0 : ∀ (rs : List (Nat × List Nat)) (base : Nat), 1 ≤ base →
        chunksContiguous base rs →
        invokeCount 0 ((rs.map (fun p => if p.1 = 0
          then [UploadEvent.invoke 0 0, UploadEvent.wait d, UploadEvent.invoke 0 1]
          else [UploadEvent.invoke p.1 0])).flatten) = 0 := by
      intro rs
      induction rs with
      | nil =>
        intro base _ _
        rfl
      | cons q t ih =>
        intro base hbase hcont
        rcases q with ⟨qo, qb⟩
        obtain ⟨hqo, hqb, hqcont⟩ := hcont
        have hqlen : 1 ≤ qb.length := List.length_pos.mpr hqb
        have hq1 : 1 ≤ qo := by omega
        have hb0 : (qo == 0) = false := by
          simp
          omega
        have hq0 : invokeCount 0 [UploadEvent.invoke qo 0] = 0 := by
          simp [invokeCount, List.filter, hb0]
        simp only [List.map_cons, List.flatten_cons, invokeCount_append]
        rw [ih (base + qb.length) (by omega) hqcont]
        have hqne : ¬qo = 0 := by omega
        simp [hqne, hq0]
    cases l with
    | nil =>
      exact absurd (by simpa using h2.symm) hne
    | cons p rest =>
      rcases p with ⟨o, b⟩
      obtain ⟨ho, hbne, hcont⟩ := h1
      subst ho
      have hblen : 1 ≤ b.length := List.length_pos.mpr hbne
      simp only [List.map_cons, List.flatten_cons, invokeCount_append]
      rw [hrest0 rest (0 + b.length) (by omega) hcont]
      simp [invokeCount, List.filter]
  · have hCAP : 0 < CAP := by norm_num [CAP]
    have hpos : 0 < hd.size := by
      rw [hsz]
      exact List.length_pos.mpr hne
    have hrb : BigMediaLoaderModule.readBase64 st h 0 C
        = .ok ⟨0, min (min C CAP) (hd.size - 0),
               decide (0 + min (min C CAP) (hd.size - 0) ≥ hd.size),
               b64encodeBytes ((hd.content.drop 0).take (min (min C CAP) (hd.size - 0)))⟩ := by
      simp only [BigMediaLoaderModule.readBase64, hlk]
      rw [if_neg (by omega)]
    have hretry : ∀ chunk : List Nat, uploadOnChunk (alwaysFails m) 1 d [] chunk 0
        = ([UploadEvent.invoke 0 0], some (Err.uploadFailed m)) := fun _ => rfl
    simp only [uploadFileInChunks, readFileInChunks, BigMediaLoaderModule.stat, hlk]
    simp only [readChunksLoop, if_pos hpos, hrb, hretry]

/-- Witness for C6 at the ten-byte demo file with chunk size 4, retry
delay 7 and error message `boom`. -/
theorem c6_witness :
    (demoState.handles.lookup 1 = some demoHandle ∧
      demoHandle.size = demoHandle.content.length ∧
      (∀ b ∈ demoHandle.content, b < 256) ∧ demoHandle.content ≠ [] ∧ 1 ≤ 4) ∧
    ((∀ (uf : List Nat → Nat → Nat → Except String Unit) (chunk : List Nat) (off R : Nat),
        ∃ k, k ≤ R ∧
          (retryGo uf chunk off R 7 0 R none).1 = retryPattern off 7 0 k ∧
          invokeCount off (retryGo uf chunk off R 7 0 R none).1 ≤ R) ∧
      ((uploadFileInChunks demoState 1 4 (failsFirst "boom") 2 7).2 = none ∧
        invokeCount 0 (uploadFileInChunks demoState 1 4 (failsFirst "boom") 2 7).1 = 2) ∧
      uploadFileInChunks demoState 1 4 (alwaysFails "boom") 1 7
        = ([.invoke 0 0], some (.uploadFailed "boom"))) :=
  ⟨⟨by decide, by decide, by decide, by decide, by decide⟩,
   c6_upload_retry demoState 1 demoHandle (by decide) (by decide) (by decide) (by decide)
     4 (by decide) 7 "boom"⟩

/-- Witness for C10 at the ten-byte demo file: zero retry attempts surface
the generic error with an empty event trace. -/
theorem c10_witness :
    (demoState.handles.lookup 1 = some demoHandle ∧
      demoHandle.size = demoHandle.content.length ∧
      demoHandle.content ≠ [] ∧ 1 ≤ 4) ∧
    uploadFileInChunks demoState 1 4 (fun _ _ _ => Except.ok ()) 0 9
      = ([], some (Err.uploadFailed "Upload failed after all retry attempts")) :=
  ⟨⟨by decide, by decide, by decide, by decide⟩,
   c10_upload_zero_attempts demoState 1 demoHandle (by decide) (by decide) (by decide)
     4 (by decide) (fun _ _ _ => Except.ok ()) 9⟩
